import Mathlib

/-!
Verification of the algebraic-structure analyzer and arithmetic tools of
`src/tools.py` (repository `hf_agents_final_assignment`).

The analyzer operates on a finite set `S` of labels and an operation table
`T` (a list of rows).  Labels reaching these tools are Python values; the
claims exercise integer and string labels, so labels are embedded as the sum
type `PyVal`.  Python exceptions that the analyzed code can actually raise on
square tables (`KeyError` from the label-to-index dictionary in
`is_associative`, `TypeError` from `sorted`/`str.join` on non-string labels
in `commutativity_counterexample_elements`, `ValueError` in `divide`) are
embedded with `Except PyErr`.  Functions that perform no such operation are
total.  Out-of-range list indexing is embedded with `List.getD` defaults;
every theorem below only evaluates the table inside the index ranges the
source's loops use, so the defaults are never observable.
-/

namespace Tools

/-- A Python label value: the claims exercise `int` and `str` labels. -/
inductive PyVal where
  | pint : Int → PyVal
  | pstr : String → PyVal
deriving DecidableEq, Repr

instance : Inhabited PyVal := ⟨PyVal.pstr ""⟩

/-- Python truthiness of a label: `not x` is true for `0` and `""`. -/
def PyVal.falsy : PyVal → Bool
  | .pint n => decide (n = 0)
  | .pstr s => decide (s = "")

/-- Whether a label is a Python `str`. -/
def PyVal.isStr : PyVal → Bool
  | .pint _ => false
  | .pstr _ => true

/-- The string carried by a `str` label (junk for `int` labels; only used
under an `isStr` guard). -/
def PyVal.str : PyVal → String
  | .pint _ => ""
  | .pstr s => s

/-- Python exceptions raised by the embedded code. -/
inductive PyErr where
  | keyError
  | typeError
  | valueError
deriving DecidableEq, Repr

/-- `set_elements[i]` (in range in every use below). -/
def sget (S : List PyVal) (i : Nat) : PyVal := S.getD i default

/-- `operation_table[i][j]` (in range in every use below). -/
def tget (T : List (List PyVal)) (i j : Nat) : PyVal := (T.getD i []).getD j default

/-- The index pairs visited by `for i in range(n): for j in range(n)`,
in row-major scan order. -/
def rowMajorIdx (n : Nat) : List (Nat × Nat) :=
  (List.range n).flatMap fun i => (List.range n).map fun j => (i, j)

/-- `is_commutative` (src/tools.py lines 262-276): scans all `(i, j)` and
reports whether `T[i][j] == T[j][i]` everywhere (the source's early
`return False` computes the same boolean). -/
def is_commutative (S : List PyVal) (T : List (List PyVal)) : Bool :=
  (rowMajorIdx S.length).all fun p => decide (tget T p.1 p.2 = tget T p.2 p.1)

/-- `commutativity_counterexample_pairs` (src/tools.py lines 280-295):
appends `(S[i], S[j])` for every `(i, j)` with `T[i][j] != T[j][i]`. -/
def commutativity_counterexample_pairs (S : List PyVal) (T : List (List PyVal)) :
    List (PyVal × PyVal) :=
  (rowMajorIdx S.length).filterMap fun p =>
    if tget T p.1 p.2 ≠ tget T p.2 p.1 then some (sget S p.1, sget S p.2) else none

/-- `set.add`: insert a value unless already present. -/
def pyInsert (acc : List PyVal) (x : PyVal) : List PyVal :=
  if x ∈ acc then acc else acc ++ [x]

/-- One scan step of the `involved`-set construction of
`commutativity_counterexample_elements` (src/tools.py lines 310-314): on a
violating `(i, j)` it adds `S[i]` then `S[j]` to the set. -/
def involvedStep (S : List PyVal) (T : List (List PyVal))
    (acc : List PyVal) (p : Nat × Nat) : List PyVal :=
  if tget T p.1 p.2 ≠ tget T p.2 p.1
  then pyInsert (pyInsert acc (sget S p.1)) (sget S p.2)
  else acc

/-- The `involved` set built by `commutativity_counterexample_elements`
(src/tools.py lines 308-314). -/
def involvedList (S : List PyVal) (T : List (List PyVal)) : List PyVal :=
  (rowMajorIdx S.length).foldl (involvedStep S T) []

/-- Python `",".join(xs)` for a homogeneous list of strings. -/
def joinComma : List String → String
  | [] => ""
  | [s] => s
  | s :: rest => s ++ "," ++ joinComma rest

/-- `commutativity_counterexample_elements` (src/tools.py lines 299-315):
`",".join(sorted(involved))`.  When `involved` holds any non-string label,
`sorted` (on a mixed set) or `",".join` (on any non-`str` item) raises
`TypeError`; both surface as the same exception, embedded as one error. -/
def commutativity_counterexample_elements (S : List PyVal) (T : List (List PyVal)) :
    Except PyErr String :=
  if (involvedList S T).all PyVal.isStr
  then .ok (joinComma (List.insertionSort (· ≤ ·) ((involvedList S T).map PyVal.str)))
  else .error .typeError

/-- The inner loop of `find_identity_element` (src/tools.py lines 358-361):
candidate `S[i]` passes iff `T[i][j] == S[j]` and `T[j][i] == S[j]` for
every `j` (the source's early `break` computes the same boolean). -/
def rowCheck (S : List PyVal) (T : List (List PyVal)) (i : Nat) : Bool :=
  (List.range S.length).all fun j =>
    decide (tget T i j = sget S j) && decide (tget T j i = sget S j)

/-- The outer scan of `find_identity_element`: first passing candidate, else
the empty-string sentinel. -/
def findIdAux (S : List PyVal) (T : List (List PyVal)) : List Nat → PyVal
  | [] => .pstr ""
  | i :: rest => if rowCheck S T i then sget S i else findIdAux S T rest

/-- `find_identity_element` (src/tools.py lines 345-364). -/
def find_identity_element (S : List PyVal) (T : List (List PyVal)) : PyVal :=
  findIdAux S T (List.range S.length)

/-- `find_inverses` (src/tools.py lines 368-389).  The source guards with
`if not identity:` — Python truthiness — so any falsy identity label (the
`""` sentinel, but also a genuine identity labelled `0`) selects the
all-`None` branch.  Otherwise each `S[i]` maps to the first `S[j]` with
`T[i][j] == identity and T[j][i] == identity`, or `None`.  The returned
dict (one key per element, insertion order = S's order, for distinct S) is
embedded as an association list. -/
def find_inverses (S : List PyVal) (T : List (List PyVal)) :
    List (PyVal × Option PyVal) :=
  let identity := find_identity_element S T
  if identity.falsy
  then S.map fun e => (e, none)
  else
    (List.range S.length).map fun i =>
      (sget S i,
       ((List.range S.length).find? fun j =>
          decide (tget T i j = identity) && decide (tget T j i = identity)).map
         (sget S))

/-- The dictionary `idx = {e: i for i, e in enumerate(set_elements)}` of
`is_associative` (src/tools.py line 329), looked up at `a`: later bindings
overwrite earlier ones, so this is the last index of `a` in `S`; `none` is
the `KeyError` case. -/
def dictIdx (S : List PyVal) (a : PyVal) : Option Nat :=
  (List.range S.length).foldl
    (fun acc i => if sget S i = a then some i else acc) none

/-- The index triples visited by the three nested loops of `is_associative`,
in scan order. -/
def triples (n : Nat) : List (Nat × Nat × Nat) :=
  (List.range n).flatMap fun i => (List.range n).flatMap fun j =>
    (List.range n).map fun k => (i, j, k)

/-- One iteration of `is_associative`'s innermost body (src/tools.py lines
333-340): look up `idx[T[i][j]]` (KeyError possible), read the left product,
look up `idx[T[j][k]]` (KeyError possible), read the right product, compare. -/
def checkTriple (S : List PyVal) (T : List (List PyVal)) :
    Nat × Nat × Nat → Except PyErr Bool
  | (i, j, k) =>
    match dictIdx S (tget T i j) with
    | none => .error .keyError
    | some ai =>
      match dictIdx S (tget T j k) with
      | none => .error .keyError
      | some bi => .ok (decide (tget T ai k = tget T i bi))

/-- The triple loop of `is_associative` with its early `return False`. -/
def assocLoop (S : List PyVal) (T : List (List PyVal)) :
    List (Nat × Nat × Nat) → Except PyErr Bool
  | [] => .ok true
  | t :: ts =>
    match checkTriple S T t with
    | .error e => .error e
    | .ok false => .ok false
    | .ok true => assocLoop S T ts

/-- `is_associative` (src/tools.py lines 319-341). -/
def is_associative (S : List PyVal) (T : List (List PyVal)) : Except PyErr Bool :=
  assocLoop S T (triples S.length)

/-- `divide` (src/tools.py lines 207-218), with the numeric arguments
embedded as exact rationals: `ValueError` on `y == 0`, else the quotient. -/
def divide (x y : ℚ) : Except PyErr ℚ :=
  if y = 0 then .error .valueError else .ok (x / y)

/-- C1: on the XOR-like scenario S = [0,1], T = [[0,1],[1,0]] the code
returns commutative = true, no counterexample pairs, associative = true and
identity = 0 as the claim states, but `find_inverses` returns the all-`None`
mapping `{0: None, 1: None}` instead of the claimed `{0: 0, 1: 1}`: the
identity label `0` is falsy, so the source's `if not identity:` guard
misfires. -/
theorem xor_scenario_eval :
    is_commutative [.pint 0, .pint 1] [[.pint 0, .pint 1], [.pint 1, .pint 0]] = true
    ∧ commutativity_counterexample_pairs [.pint 0, .pint 1]
        [[.pint 0, .pint 1], [.pint 1, .pint 0]] = []
    ∧ is_associative [.pint 0, .pint 1] [[.pint 0, .pint 1], [.pint 1, .pint 0]] =
        .ok true
    ∧ find_identity_element [.pint 0, .pint 1]
        [[.pint 0, .pint 1], [.pint 1, .pint 0]] = .pint 0
    ∧ find_inverses [.pint 0, .pint 1] [[.pint 0, .pint 1], [.pint 1, .pint 0]] =
        [(.pint 0, none), (.pint 1, none)] :=
  ⟨rfl, rfl, rfl, rfl, rfl⟩

/-- C2: at S = [0,1], T = [[0,1],[1,0]] the code finds the identity `0`, and
`0` is its own two-sided inverse (`T[0][0] == 0` both ways), yet
`find_inverses` maps every element to `None`: the claimed "otherwise" branch
is not taken because the source tests `if not identity:` (Python truthiness)
rather than comparing against the no-identity sentinel. -/
theorem find_inverses_falsy_identity_bug :
    find_identity_element [.pint 0, .pint 1]
        [[.pint 0, .pint 1], [.pint 1, .pint 0]] = .pint 0
    ∧ tget [[.pint 0, .pint 1], [.pint 1, .pint 0]] 0 0 = .pint 0
    ∧ find_inverses [.pint 0, .pint 1] [[.pint 0, .pint 1], [.pint 1, .pint 0]] =
        [(.pint 0, none), (.pint 1, none)] :=
  ⟨rfl, rfl, rfl⟩

lemma sget_mem {S : List PyVal} {i : Nat} (h : i < S.length) : sget S i ∈ S := by
  rw [sget, List.getD_eq_getElem _ _ h]
  exact List.getElem_mem h

lemma mem_rowMajorIdx {n : Nat} {p : Nat × Nat} :
    p ∈ rowMajorIdx n ↔ p.1 < n ∧ p.2 < n := by
  rcases p with ⟨i, j⟩
  constructor
  · intro h
    rcases List.mem_flatMap.mp h with ⟨a, ha, hmem⟩
    rcases List.mem_map.mp hmem with ⟨b, hb, heq⟩
    cases heq
    exact ⟨List.mem_range.mp ha, List.mem_range.mp hb⟩
  · rintro ⟨hi, hj⟩
    exact List.mem_flatMap.mpr ⟨i, List.mem_range.mpr hi,
      List.mem_map.mpr ⟨j, List.mem_range.mpr hj, rfl⟩⟩

lemma nodup_rowMajorIdx (n : Nat) : (rowMajorIdx n).Nodup := by
  rw [rowMajorIdx]
  refine List.nodup_flatMap.mpr ⟨?_, ?_⟩
  · intro i _
    exact (List.nodup_range n).map fun a b h => (Prod.ext_iff.mp h).2
  · refine (List.pairwise_lt_range n).imp ?_
    intro a b hab x hxa hxb
    rcases List.mem_map.mp hxa with ⟨j, _, rfl⟩
    rcases List.mem_map.mp hxb with ⟨k, _, hk⟩
    exact absurd (Prod.ext_iff.mp hk).1 (Nat.ne_of_lt' hab)

/-- Row-major precedence on index pairs: earlier row, or same row and
earlier column. -/
def rmLt (p q : Nat × Nat) : Prop := p.1 < q.1 ∨ (p.1 = q.1 ∧ p.2 < q.2)

lemma pairwise_rowMajorIdx (n : Nat) : (rowMajorIdx n).Pairwise rmLt := by
  rw [rowMajorIdx, List.flatMap_def]
  refine List.pairwise_flatten.mpr ⟨?_, ?_⟩
  · intro l hl
    rcases List.mem_map.mp hl with ⟨i, _, rfl⟩
    exact List.pairwise_map.mpr ((List.pairwise_lt_range n).imp fun h => Or.inr ⟨rfl, h⟩)
  · refine List.pairwise_map.mpr ((List.pairwise_lt_range n).imp ?_)
    intro a b hab x hx y hy
    rcases List.mem_map.mp hx with ⟨j, _, rfl⟩
    rcases List.mem_map.mp hy with ⟨k, _, rfl⟩
    exact Or.inl hab

lemma filterMap_ite_eq_filter_map {α β : Type} (l : List α) (p : α → Prop)
    [DecidablePred p] (g : α → β) :
    (l.filterMap fun x => if p x then some (g x) else none) =
      (l.filter fun x => decide (p x)).map g := by
  induction l with
  | nil => rfl
  | cons a l ih =>
    by_cases h : p a <;> simp [List.filterMap_cons, List.filter_cons, h, ih]

lemma is_commutative_iff {S : List PyVal} {T : List (List PyVal)} :
    is_commutative S T = true ↔
      ∀ i j, i < S.length → j < S.length → tget T i j = tget T j i := by
  rw [is_commutative, List.all_eq_true]
  constructor
  · intro h i j hi hj
    exact of_decide_eq_true (h (i, j) (mem_rowMajorIdx.mpr ⟨hi, hj⟩))
  · intro h p hp
    rcases mem_rowMajorIdx.mp hp with ⟨h1, h2⟩
    exact decide_eq_true (h _ _ h1 h2)

lemma mem_counterexample_pairs {S : List PyVal} {T : List (List PyVal)}
    {q : PyVal × PyVal} :
    q ∈ commutativity_counterexample_pairs S T ↔
      ∃ p, p ∈ rowMajorIdx S.length ∧ tget T p.1 p.2 ≠ tget T p.2 p.1 ∧
        q = (sget S p.1, sget S p.2) := by
  rw [commutativity_counterexample_pairs]
  simp only [List.mem_filterMap, Option.ite_none_right_eq_some, Option.some.injEq]
  constructor
  · rintro ⟨p, hp, hne, hq⟩
    exact ⟨p, hp, hne, hq.symm⟩
  · rintro ⟨p, hp, hne, hq⟩
    exact ⟨p, hp, hne, hq.symm⟩

lemma counterexample_pairs_eq_nil_iff {S : List PyVal} {T : List (List PyVal)} :
    commutativity_counterexample_pairs S T = [] ↔ is_commutative S T = true := by
  rw [commutativity_counterexample_pairs, List.filterMap_eq_nil_iff, is_commutative,
    List.all_eq_true]
  constructor
  · intro h p hp
    have hp' := h p hp
    by_cases hne : tget T p.1 p.2 = tget T p.2 p.1
    · exact decide_eq_true hne
    · simp [hne] at hp'
  · intro h p hp
    have heq := of_decide_eq_true (h p hp)
    simp [heq]

/-- C4: for every (S, T), `is_commutative` returns true exactly when
`commutativity_counterexample_pairs` returns the empty list. -/
theorem is_commutative_iff_no_counterexample_pairs (S : List PyVal)
    (T : List (List PyVal)) :
    is_commutative S T = true ↔ commutativity_counterexample_pairs S T = [] :=
  counterexample_pairs_eq_nil_iff.symm

/-- The violating index pairs in row-major scan order, written spec-side as a
filter of the row-major enumeration. -/
def violatingIdx (S : List PyVal) (T : List (List PyVal)) : List (Nat × Nat) :=
  (rowMajorIdx S.length).filter fun p => decide (tget T p.1 p.2 ≠ tget T p.2 p.1)

/-- C5: `commutativity_counterexample_pairs` returns exactly the label pairs
`(S[i], S[j])` at the violating index pairs, which are scanned in row-major
order (outer `i`, inner `j`), each violating ordered index pair listed
exactly once (the index list is duplicate-free and strictly increasing in
row-major precedence), and the result is empty iff the operation is
commutative. -/
theorem counterexample_pairs_spec (S : List PyVal) (T : List (List PyVal)) :
    commutativity_counterexample_pairs S T =
        (violatingIdx S T).map (fun p => (sget S p.1, sget S p.2))
    ∧ (violatingIdx S T).Nodup
    ∧ (violatingIdx S T).Pairwise rmLt
    ∧ (∀ p : Nat × Nat, p ∈ violatingIdx S T ↔
        p.1 < S.length ∧ p.2 < S.length ∧ tget T p.1 p.2 ≠ tget T p.2 p.1)
    ∧ (commutativity_counterexample_pairs S T = [] ↔ is_commutative S T = true) := by
  refine ⟨?_, ?_, ?_, ?_, counterexample_pairs_eq_nil_iff⟩
  · rw [commutativity_counterexample_pairs, violatingIdx]
    exact filterMap_ite_eq_filter_map _ _ _
  · exact (nodup_rowMajorIdx _).filter _
  · exact List.Pairwise.sublist (List.filter_sublist _) (pairwise_rowMajorIdx _)
  · intro p
    rw [violatingIdx, List.mem_filter, mem_rowMajorIdx]
    simp [and_assoc]

/-- The two-sided-identity condition the spec states for the candidate at
index `i`: `T[i][j] == S[j]` and `T[j][i] == S[j]` for every `j`. -/
def isIdentityAt (S : List PyVal) (T : List (List PyVal)) (i : Nat) : Prop :=
  ∀ j, j < S.length → tget T i j = sget S j ∧ tget T j i = sget S j

lemma rowCheck_iff {S : List PyVal} {T : List (List PyVal)} {i : Nat} :
    rowCheck S T i = true ↔ isIdentityAt S T i := by
  rw [rowCheck, List.all_eq_true]
  constructor
  · intro h j hj
    have hj' := h j (List.mem_range.mpr hj)
    rw [Bool.and_eq_true, decide_eq_true_eq, decide_eq_true_eq] at hj'
    exact hj'
  · intro h j hj
    rw [Bool.and_eq_true, decide_eq_true_eq, decide_eq_true_eq]
    exact h j (List.mem_range.mp hj)

lemma findIdAux_of_all_false {S : List PyVal} {T : List (List PyVal)}
    {l : List Nat} (h : ∀ i ∈ l, rowCheck S T i = false) :
    findIdAux S T l = .pstr "" := by
  induction l with
  | nil => rfl
  | cons a l ih =>
    have ha := h a (List.mem_cons_self a l)
    simp [findIdAux, ha, ih fun i hi => h i (List.mem_cons_of_mem a hi)]

lemma findIdAux_append_of_false {S : List PyVal} {T : List (List PyVal)}
    {l₁ l₂ : List Nat} (h : ∀ i ∈ l₁, rowCheck S T i = false) :
    findIdAux S T (l₁ ++ l₂) = findIdAux S T l₂ := by
  induction l₁ with
  | nil => rfl
  | cons a l ih =>
    have ha := h a (List.mem_cons_self a l)
    simp [findIdAux, ha, ih fun i hi => h i (List.mem_cons_of_mem a hi)]

lemma findIdAux_sentinel_or_mem {S : List PyVal} {T : List (List PyVal)}
    (l : List Nat) :
    findIdAux S T l = .pstr "" ∨ ∃ i ∈ l, findIdAux S T l = sget S i := by
  induction l with
  | nil => exact Or.inl rfl
  | cons a l ih =>
    by_cases h : rowCheck S T a = true
    · exact Or.inr ⟨a, List.mem_cons_self a l, by simp [findIdAux, h]⟩
    · have hb : rowCheck S T a = false := by
        cases hc : rowCheck S T a
        · rfl
        · exact absurd hc h
      rcases ih with h1 | ⟨i, hi, h2⟩
      · exact Or.inl (by simp [findIdAux, hb, h1])
      · exact Or.inr ⟨i, List.mem_cons_of_mem a hi, by simp [findIdAux, hb, h2]⟩

lemma range_split {n i : Nat} (h : i < n) :
    List.range n = List.range i ++ i :: List.range' (i + 1) (n - i - 1) := by
  have h1 : List.range' i (n - i) 1 = i :: List.range' (i + 1) (n - i - 1) 1 := by
    conv_lhs => rw [show n - i = (n - i - 1) + 1 from by omega]
    rw [List.range'_succ]
  calc List.range n = List.range' 0 n 1 := List.range_eq_range' n
    _ = List.range' 0 (n - i + i) 1 := by rw [Nat.sub_add_cancel (Nat.le_of_lt h)]
    _ = List.range' 0 i 1 ++ List.range' (0 + 1 * i) (n - i) 1 :=
        (List.range'_append 0 i (n - i) 1).symm
    _ = List.range i ++ i :: List.range' (i + 1) (n - i - 1) := by
        simp only [Nat.zero_add, Nat.one_mul]
        rw [h1, ← List.range_eq_range']

/-- C7: `find_identity_element` returns the first `S[i]` (in S's order) that
is a two-sided identity, and the empty-string sentinel when no candidate
passes. -/
theorem find_identity_element_first (S : List PyVal) (T : List (List PyVal)) :
    (∃ i, i < S.length ∧ isIdentityAt S T i ∧
      (∀ i', i' < i → ¬ isIdentityAt S T i') ∧
      find_identity_element S T = sget S i)
    ∨ ((∀ i, i < S.length → ¬ isIdentityAt S T i) ∧
      find_identity_element S T = .pstr "") := by
  by_cases hex : ∃ i, i < S.length ∧ rowCheck S T i = true
  · left
    obtain ⟨hi0n, hi0c⟩ := Nat.find_spec hex
    refine ⟨Nat.find hex, hi0n, rowCheck_iff.mp hi0c, ?_, ?_⟩
    · intro i' hi' hid
      exact Nat.find_min hex hi' ⟨Nat.lt_trans hi' hi0n, rowCheck_iff.mpr hid⟩
    · have hfalse : ∀ i ∈ List.range (Nat.find hex), rowCheck S T i = false := by
        intro i hi
        have hilt := List.mem_range.mp hi
        cases hc : rowCheck S T i
        · rfl
        · exact absurd ⟨Nat.lt_trans hilt hi0n, hc⟩ (Nat.find_min hex hilt)
      rw [find_identity_element, range_split hi0n, findIdAux_append_of_false hfalse]
      simp [findIdAux, hi0c]
  · right
    constructor
    · intro i hin hid
      exact hex ⟨i, hin, rowCheck_iff.mpr hid⟩
    · refine findIdAux_of_all_false ?_
      intro i hi
      cases hc : rowCheck S T i
      · rfl
      · exact absurd ⟨i, List.mem_range.mp hi, hc⟩ hex

lemma pyInsert_mem {acc : List PyVal} {x y : PyVal} :
    y ∈ pyInsert acc x ↔ y ∈ acc ∨ y = x := by
  rw [pyInsert]
  split
  · rename_i h
    constructor
    · exact Or.inl
    · rintro (hy | rfl)
      · exact hy
      · exact h
  · simp [List.mem_append]

lemma pyInsert_nodup {acc : List PyVal} {x : PyVal} (h : acc.Nodup) :
    (pyInsert acc x).Nodup := by
  rw [pyInsert]
  split
  · exact h
  · rename_i hx
    simp [List.nodup_append, h, hx]

lemma mem_foldl_involvedStep {S : List PyVal} {T : List (List PyVal)}
    (l : List (Nat × Nat)) (acc : List PyVal) (x : PyVal) :
    x ∈ l.foldl (involvedStep S T) acc ↔
      x ∈ acc ∨ ∃ p ∈ l, tget T p.1 p.2 ≠ tget T p.2 p.1 ∧
        (x = sget S p.1 ∨ x = sget S p.2) := by
  induction l generalizing acc with
  | nil => simp
  | cons q l ih =>
    rw [List.foldl_cons, ih, involvedStep]
    split
    · rename_i hq
      simp only [pyInsert_mem]
      constructor
      · rintro (((hx | rfl) | rfl) | ⟨p, hp, hv, hor⟩)
        · exact Or.inl hx
        · exact Or.inr ⟨q, List.mem_cons_self q l, hq, Or.inl rfl⟩
        · exact Or.inr ⟨q, List.mem_cons_self q l, hq, Or.inr rfl⟩
        · exact Or.inr ⟨p, List.mem_cons_of_mem q hp, hv, hor⟩
      · rintro (hx | ⟨p, hp, hv, hor⟩)
        · exact Or.inl (Or.inl (Or.inl hx))
        · rcases List.mem_cons.mp hp with rfl | hp'
          · rcases hor with rfl | rfl
            · exact Or.inl (Or.inl (Or.inr rfl))
            · exact Or.inl (Or.inr rfl)
          · exact Or.inr ⟨p, hp', hv, hor⟩
    · rename_i hq
      constructor
      · rintro (hx | ⟨p, hp, hv, hor⟩)
        · exact Or.inl hx
        · exact Or.inr ⟨p, List.mem_cons_of_mem q hp, hv, hor⟩
      · rintro (hx | ⟨p, hp, hv, hor⟩)
        · exact Or.inl hx
        · rcases List.mem_cons.mp hp with rfl | hp'
          · exact absurd hv hq
          · exact Or.inr ⟨p, hp', hv, hor⟩

lemma mem_involvedList {S : List PyVal} {T : List (List PyVal)} {x : PyVal} :
    x ∈ involvedList S T ↔
      ∃ p ∈ rowMajorIdx S.length, tget T p.1 p.2 ≠ tget T p.2 p.1 ∧
        (x = sget S p.1 ∨ x = sget S p.2) := by
  rw [involvedList, mem_foldl_involvedStep]
  simp

lemma nodup_involvedList {S : List PyVal} {T : List (List PyVal)} :
    (involvedList S T).Nodup := by
  rw [involvedList]
  generalize hl : rowMajorIdx S.length = l
  clear hl
  suffices h : ∀ (l : List (Nat × Nat)) (acc : List PyVal), acc.Nodup →
      (l.foldl (involvedStep S T) acc).Nodup from h l [] List.nodup_nil
  intro l
  induction l with
  | nil => exact fun acc h => h
  | cons q l ih =>
    intro acc hacc
    rw [List.foldl_cons]
    refine ih _ ?_
    rw [involvedStep]
    split
    · exact pyInsert_nodup (pyInsert_nodup hacc)
    · exact hacc

lemma mem_involvedList_mem {S : List PyVal} {T : List (List PyVal)} {x : PyVal}
    (hx : x ∈ involvedList S T) : x ∈ S := by
  rcases mem_involvedList.mp hx with ⟨p, hp, _, hor⟩
  rcases mem_rowMajorIdx.mp hp with ⟨h1, h2⟩
  rcases hor with rfl | rfl
  · exact sget_mem h1
  · exact sget_mem h2

/-- The labels occurring in a list of pairs (spec side). -/
def pairLabels (l : List (PyVal × PyVal)) : List PyVal :=
  l.flatMap fun q => [q.1, q.2]

lemma mem_pairLabels {l : List (PyVal × PyVal)} {x : PyVal} :
    x ∈ pairLabels l ↔ ∃ q ∈ l, x = q.1 ∨ x = q.2 := by
  simp [pairLabels, List.mem_flatMap]

lemma mem_pairLabels_counterexample {S : List PyVal} {T : List (List PyVal)}
    {x : PyVal} :
    x ∈ pairLabels (commutativity_counterexample_pairs S T) ↔
      ∃ p ∈ rowMajorIdx S.length, tget T p.1 p.2 ≠ tget T p.2 p.1 ∧
        (x = sget S p.1 ∨ x = sget S p.2) := by
  rw [mem_pairLabels]
  constructor
  · rintro ⟨q, hq, hor⟩
    rcases mem_counterexample_pairs.mp hq with ⟨p, hp, hv, rfl⟩
    exact ⟨p, hp, hv, hor⟩
  · rintro ⟨p, hp, hv, hor⟩
    exact ⟨(sget S p.1, sget S p.2),
      mem_counterexample_pairs.mpr ⟨p, hp, hv, rfl⟩, hor⟩

lemma PyVal.eq_pstr_of_isStr {x : PyVal} (h : x.isStr = true) : x = .pstr x.str := by
  cases x
  · exact absurd h (by simp [PyVal.isStr])
  · rfl

/-- C9 (amended): the commutativity reporters and the identity finder
translate no table entry back to an index, hence never raise a lookup
failure; on any square table — closed or not — `is_commutative`,
`commutativity_counterexample_pairs` and `find_identity_element` are total
(embedded without an error channel) and produce values built from `S`'s own
labels, and `commutativity_counterexample_elements` returns a normal string
whenever the labels are strings; its only possible failure is the join/sort
type error on non-string labels, never a lookup error. -/
theorem analyzer_no_lookup_failure (S : List PyVal) (T : List (List PyVal)) :
    commutativity_counterexample_elements S T ≠ .error .keyError
    ∧ ((∀ x ∈ S, PyVal.isStr x = true) →
        ∃ r, commutativity_counterexample_elements S T = .ok r)
    ∧ (find_identity_element S T = .pstr "" ∨ find_identity_element S T ∈ S)
    ∧ (∀ q ∈ commutativity_counterexample_pairs S T, q.1 ∈ S ∧ q.2 ∈ S) := by
  refine ⟨?_, ?_, ?_, ?_⟩
  · rw [commutativity_counterexample_elements]
    split
    · simp
    · simp
  · intro hstr
    have hall : (involvedList S T).all PyVal.isStr = true :=
      List.all_eq_true.mpr fun x hx => hstr x (mem_involvedList_mem hx)
    exact ⟨_, by rw [commutativity_counterexample_elements, if_pos hall]⟩
  · rcases findIdAux_sentinel_or_mem (S := S) (T := T) (List.range S.length) with
      h | ⟨i, hi, h⟩
    · exact Or.inl h
    · right
      rw [find_identity_element, h]
      exact sget_mem (List.mem_range.mp hi)
  · intro q hq
    rcases mem_counterexample_pairs.mp hq with ⟨p, hp, _, rfl⟩
    rcases mem_rowMajorIdx.mp hp with ⟨h1, h2⟩
    exact ⟨sget_mem h1, sget_mem h2⟩

/-- Witness for the amended C9 at a concrete string-labelled input. -/
theorem analyzer_no_lookup_failure_witness :
    (∀ x ∈ [PyVal.pstr "a", PyVal.pstr "b"], PyVal.isStr x = true)
    ∧ ∃ r, commutativity_counterexample_elements [.pstr "a", .pstr "b"]
        [[.pstr "a", .pstr "a"], [.pstr "b", .pstr "a"]] = .ok r :=
  ⟨by decide,
   (analyzer_no_lookup_failure [.pstr "a", .pstr "b"]
      [[.pstr "a", .pstr "a"], [.pstr "b", .pstr "a"]]).2.1 (by decide)⟩

/-- C9 counterexample: on the square non-commutative table over integer
labels S = [0,1], T = [[0,0],[1,0]], `commutativity_counterexample_elements`
does not return a normal result: Python's `sorted`/`",".join` on the
involved `int` labels raises a type error. -/
theorem counterexample_elements_int_labels_fail :
    commutativity_counterexample_elements [.pint 0, .pint 1]
      [[.pint 0, .pint 0], [.pint 1, .pint 0]] = .error .typeError := rfl

/-- Spec-side description of `commutativity_counterexample_elements` on
string labels: the labels appearing in some counterexample pair,
deduplicated, sorted by the strings' natural order, joined with commas. -/
def elementsSpec (S : List PyVal) (T : List (List PyVal)) : String :=
  joinComma (List.insertionSort (· ≤ ·)
    (((pairLabels (commutativity_counterexample_pairs S T)).dedup).map PyVal.str))

lemma joinComma_ne_empty {l : List String} {x y : String} (hx : x ∈ l)
    (hy : y ∈ l) (hxy : x ≠ y) : joinComma l ≠ "" := by
  match l with
  | [] => cases hx
  | [s] =>
    rcases List.mem_singleton.mp hx with rfl
    rcases List.mem_singleton.mp hy with rfl
    exact absurd rfl hxy
  | s :: t :: r =>
    intro h
    have hlen := congrArg String.length h
    have hcomma : ("," : String).length = 1 := rfl
    have hnil : ("" : String).length = 0 := rfl
    simp only [joinComma, String.length_append, hcomma, hnil] at hlen
    omega

/-- C6 counterexample: with integer labels S = [0,1] and the non-commutative
table T = [[1,0],[1,1]], `commutativity_counterexample_elements` does not
return a comma-joined string at all — it raises the join/sort type error. -/
theorem counterexample_elements_int_labels_no_string :
    commutativity_counterexample_elements [.pint 0, .pint 1]
      [[.pint 1, .pint 0], [.pint 1, .pint 1]] = .error .typeError := rfl

/-- C6 (amended): for every (S, T) with distinct, string-valued labels,
`commutativity_counterexample_elements` returns exactly the labels appearing
in some pair of `commutativity_counterexample_pairs`, deduplicated, sorted
by the strings' natural ordering and comma-joined, and the returned string
is empty iff the operation is commutative. -/
theorem counterexample_elements_spec (S : List PyVal) (T : List (List PyVal))
    (hstr : ∀ x ∈ S, PyVal.isStr x = true) (hnd : S.Nodup) :
    commutativity_counterexample_elements S T = .ok (elementsSpec S T)
    ∧ (elementsSpec S T = "" ↔ is_commutative S T = true) := by
  have hall : (involvedList S T).all PyVal.isStr = true :=
    List.all_eq_true.mpr fun x hx => hstr x (mem_involvedList_mem hx)
  have hperm : List.Perm (involvedList S T)
      ((pairLabels (commutativity_counterexample_pairs S T)).dedup) := by
    refine (List.perm_ext_iff_of_nodup nodup_involvedList (List.nodup_dedup _)).mpr ?_
    intro x
    rw [mem_involvedList, List.mem_dedup, mem_pairLabels_counterexample]
  have hsorteq : List.insertionSort (· ≤ ·) ((involvedList S T).map PyVal.str) =
      List.insertionSort (· ≤ ·)
        (((pairLabels (commutativity_counterexample_pairs S T)).dedup).map
          PyVal.str) := by
    refine List.eq_of_perm_of_sorted ?_ (List.sorted_insertionSort _ _)
      (List.sorted_insertionSort _ _)
    exact (List.perm_insertionSort _ _).trans
      ((hperm.map _).trans (List.perm_insertionSort _ _).symm)
  refine ⟨?_, ?_, ?_⟩
  · rw [commutativity_counterexample_elements, if_pos hall, elementsSpec, hsorteq]
  · intro hempty
    by_contra hcomm
    have hviol : ∃ i j, i < S.length ∧ j < S.length ∧ tget T i j ≠ tget T j i := by
      by_contra hallc
      push_neg at hallc
      exact hcomm (is_commutative_iff.mpr hallc)
    obtain ⟨i, j, hi, hj, hv⟩ := hviol
    have hij : i ≠ j := fun h => hv (by rw [h])
    have hxney : sget S i ≠ sget S j := by
      intro h
      apply hij
      rw [sget, sget, List.getD_eq_getElem _ _ hi, List.getD_eq_getElem _ _ hj] at h
      exact (hnd.getElem_inj_iff).mp h
    have hxmem : sget S i ∈ pairLabels (commutativity_counterexample_pairs S T) :=
      mem_pairLabels_counterexample.mpr
        ⟨(i, j), mem_rowMajorIdx.mpr ⟨hi, hj⟩, hv, Or.inl rfl⟩
    have hymem : sget S j ∈ pairLabels (commutativity_counterexample_pairs S T) :=
      mem_pairLabels_counterexample.mpr
        ⟨(i, j), mem_rowMajorIdx.mpr ⟨hi, hj⟩, hv, Or.inr rfl⟩
    have hxs := hstr _ (sget_mem hi)
    have hys := hstr _ (sget_mem hj)
    have hsne : (sget S i).str ≠ (sget S j).str := by
      intro h
      apply hxney
      rw [PyVal.eq_pstr_of_isStr hxs, PyVal.eq_pstr_of_isStr hys, h]
    have hxmem' : (sget S i).str ∈ List.insertionSort (· ≤ ·)
        (((pairLabels (commutativity_counterexample_pairs S T)).dedup).map
          PyVal.str) := by
      rw [(List.perm_insertionSort _ _).mem_iff]
      exact List.mem_map.mpr ⟨_, List.mem_dedup.mpr hxmem, rfl⟩
    have hymem' : (sget S j).str ∈ List.insertionSort (· ≤ ·)
        (((pairLabels (commutativity_counterexample_pairs S T)).dedup).map
          PyVal.str) := by
      rw [(List.perm_insertionSort _ _).mem_iff]
      exact List.mem_map.mpr ⟨_, List.mem_dedup.mpr hymem, rfl⟩
    rw [elementsSpec] at hempty
    exact joinComma_ne_empty hxmem' hymem' hsne hempty
  · intro hcomm
    rw [elementsSpec, counterexample_pairs_eq_nil_iff.mpr hcomm]
    rfl

/-- Witness for the amended C6 at the spec's non-commutative string
scenario S = [e,a,b]. -/
theorem counterexample_elements_spec_witness :
    ((∀ x ∈ [PyVal.pstr "e", PyVal.pstr "a", PyVal.pstr "b"],
        PyVal.isStr x = true)
      ∧ [PyVal.pstr "e", PyVal.pstr "a", PyVal.pstr "b"].Nodup)
    ∧ (commutativity_counterexample_elements
          [.pstr "e", .pstr "a", .pstr "b"]
          [[.pstr "e", .pstr "a", .pstr "b"], [.pstr "a", .pstr "b", .pstr "e"],
           [.pstr "b", .pstr "a", .pstr "e"]] =
        .ok (elementsSpec [.pstr "e", .pstr "a", .pstr "b"]
          [[.pstr "e", .pstr "a", .pstr "b"], [.pstr "a", .pstr "b", .pstr "e"],
           [.pstr "b", .pstr "a", .pstr "e"]])
      ∧ (elementsSpec [.pstr "e", .pstr "a", .pstr "b"]
          [[.pstr "e", .pstr "a", .pstr "b"], [.pstr "a", .pstr "b", .pstr "e"],
           [.pstr "b", .pstr "a", .pstr "e"]] = "" ↔
        is_commutative [.pstr "e", .pstr "a", .pstr "b"]
          [[.pstr "e", .pstr "a", .pstr "b"], [.pstr "a", .pstr "b", .pstr "e"],
           [.pstr "b", .pstr "a", .pstr "e"]] = true)) :=
  ⟨⟨by decide, by decide⟩, counterexample_elements_spec _ _ (by decide) (by decide)⟩

lemma foldl_dictIdx_eq_none {S : List PyVal} {a : PyVal} (l : List Nat)
    (acc : Option Nat) :
    l.foldl (fun acc i => if sget S i = a then some i else acc) acc = none ↔
      acc = none ∧ ∀ i ∈ l, sget S i ≠ a := by
  induction l generalizing acc with
  | nil => simp
  | cons b l ih =>
    rw [List.foldl_cons, ih]
    by_cases hb : sget S b = a
    · simp [hb]
    · simp [hb]

lemma dictIdx_eq_none_iff {S : List PyVal} {a : PyVal} :
    dictIdx S a = none ↔ a ∉ S := by
  rw [dictIdx, foldl_dictIdx_eq_none]
  constructor
  · rintro ⟨-, h⟩ ha
    rcases List.mem_iff_getElem.mp ha with ⟨i, hi, hgi⟩
    refine h i (List.mem_range.mpr hi) ?_
    rw [sget, List.getD_eq_getElem _ _ hi]
    exact hgi
  · intro h
    refine ⟨rfl, ?_⟩
    intro i hi hsi
    exact h (hsi ▸ sget_mem (List.mem_range.mp hi))

lemma mem_triples {n : Nat} {t : Nat × Nat × Nat} :
    t ∈ triples n ↔ t.1 < n ∧ t.2.1 < n ∧ t.2.2 < n := by
  rcases t with ⟨i, j, k⟩
  constructor
  · intro h
    rcases List.mem_flatMap.mp h with ⟨a, ha, h2⟩
    rcases List.mem_flatMap.mp h2 with ⟨b, hb, h3⟩
    rcases List.mem_map.mp h3 with ⟨c, hc, heq⟩
    cases heq
    exact ⟨List.mem_range.mp ha, List.mem_range.mp hb, List.mem_range.mp hc⟩
  · rintro ⟨hi, hj, hk⟩
    exact List.mem_flatMap.mpr ⟨i, List.mem_range.mpr hi,
      List.mem_flatMap.mpr ⟨j, List.mem_range.mpr hj,
        List.mem_map.mpr ⟨k, List.mem_range.mpr hk, rfl⟩⟩⟩

lemma assocLoop_ok_true_iff {S : List PyVal} {T : List (List PyVal)}
    (l : List (Nat × Nat × Nat)) :
    assocLoop S T l = .ok true ↔ ∀ t ∈ l, checkTriple S T t = .ok true := by
  induction l with
  | nil => simp [assocLoop]
  | cons t ts ih =>
    constructor
    · intro h t' ht'
      rcases List.mem_cons.mp ht' with rfl | ht''
      · cases hct : checkTriple S T t' with
        | error e => simp [assocLoop, hct] at h
        | ok b =>
          cases b
          · simp [assocLoop, hct] at h
          · rfl
      · cases hct : checkTriple S T t with
        | error e => simp [assocLoop, hct] at h
        | ok b =>
          cases b
          · simp [assocLoop, hct] at h
          · simp only [assocLoop, hct] at h
            exact ih.mp h t' ht''
    · intro h
      have hct := h t (List.mem_cons_self t ts)
      simp only [assocLoop, hct]
      exact ih.mpr fun t' ht' => h t' (List.mem_cons_of_mem t ht')

lemma checkTriple_cases (S : List PyVal) (T : List (List PyVal))
    (t : Nat × Nat × Nat) :
    checkTriple S T t = .error .keyError ∨ ∃ b, checkTriple S T t = .ok b := by
  rcases t with ⟨i, j, k⟩
  rw [checkTriple]
  cases dictIdx S (tget T i j) with
  | none => exact Or.inl rfl
  | some ai =>
    cases dictIdx S (tget T j k) with
    | none => exact Or.inl rfl
    | some bi => exact Or.inr ⟨_, rfl⟩

lemma assocLoop_result {S : List PyVal} {T : List (List PyVal)}
    (l : List (Nat × Nat × Nat)) :
    assocLoop S T l = .error .keyError ∨ assocLoop S T l = .ok true ∨
      assocLoop S T l = .ok false := by
  induction l with
  | nil => exact Or.inr (Or.inl rfl)
  | cons t ts ih =>
    rcases checkTriple_cases S T t with hct | ⟨b, hct⟩
    · simp only [assocLoop, hct]
      exact Or.inl trivial
    · cases b
      · simp only [assocLoop, hct]
        exact Or.inr (Or.inr trivial)
      · simp only [assocLoop, hct]
        exact ih

lemma checkTriple_ok_true_iff {S : List PyVal} {T : List (List PyVal)}
    {i j k ai bi : Nat} (hcl : dictIdx S (tget T i j) = some ai)
    (hcr : dictIdx S (tget T j k) = some bi) :
    checkTriple S T (i, j, k) = .ok true ↔ tget T ai k = tget T i bi := by
  simp [checkTriple, hcl, hcr]

/-- The left product `(S[i] ∘ S[j]) ∘ S[k]`, evaluated the way the source
does: the first product's label is translated through the label-to-index
dictionary, then the table row at that index is read (spec side). -/
def chainLeft (S : List PyVal) (T : List (List PyVal)) (i j k : Nat) :
    Option PyVal :=
  (dictIdx S (tget T i j)).map fun ai => tget T ai k

/-- The right product `S[i] ∘ (S[j] ∘ S[k])`, evaluated likewise. -/
def chainRight (S : List PyVal) (T : List (List PyVal)) (i j k : Nat) :
    Option PyVal :=
  (dictIdx S (tget T j k)).map fun bi => tget T i bi

/-- C8: on a closed table, `is_associative` returns true iff the chained
table-lookup products agree for all index triples. -/
theorem is_associative_iff_chain (S : List PyVal) (T : List (List PyVal))
    (hclosed : ∀ i, i < S.length → ∀ j, j < S.length → tget T i j ∈ S) :
    is_associative S T = .ok true ↔
      ∀ i, i < S.length → ∀ j, j < S.length → ∀ k, k < S.length →
        chainLeft S T i j k = chainRight S T i j k := by
  rw [is_associative, assocLoop_ok_true_iff]
  constructor
  · intro h i hi j hj k hk
    have hct := h (i, j, k) (mem_triples.mpr ⟨hi, hj, hk⟩)
    obtain ⟨ai, hcl⟩ : ∃ ai, dictIdx S (tget T i j) = some ai := by
      rcases hdi : dictIdx S (tget T i j) with _ | ai
      · exact absurd (dictIdx_eq_none_iff.mp hdi) (not_not_intro (hclosed i hi j hj))
      · exact ⟨ai, rfl⟩
    obtain ⟨bi, hcr⟩ : ∃ bi, dictIdx S (tget T j k) = some bi := by
      rcases hdi : dictIdx S (tget T j k) with _ | bi
      · exact absurd (dictIdx_eq_none_iff.mp hdi) (not_not_intro (hclosed j hj k hk))
      · exact ⟨bi, rfl⟩
    rw [chainLeft, chainRight, hcl, hcr]
    simpa using (checkTriple_ok_true_iff hcl hcr).mp hct
  · intro h t ht
    rcases t with ⟨i, j, k⟩
    rcases mem_triples.mp ht with ⟨hi, hj, hk⟩
    obtain ⟨ai, hcl⟩ : ∃ ai, dictIdx S (tget T i j) = some ai := by
      rcases hdi : dictIdx S (tget T i j) with _ | ai
      · exact absurd (dictIdx_eq_none_iff.mp hdi) (not_not_intro (hclosed i hi j hj))
      · exact ⟨ai, rfl⟩
    obtain ⟨bi, hcr⟩ : ∃ bi, dictIdx S (tget T j k) = some bi := by
      rcases hdi : dictIdx S (tget T j k) with _ | bi
      · exact absurd (dictIdx_eq_none_iff.mp hdi) (not_not_intro (hclosed j hj k hk))
      · exact ⟨bi, rfl⟩
    refine (checkTriple_ok_true_iff hcl hcr).mpr ?_
    have hc := h i hi j hj k hk
    rw [chainLeft, chainRight, hcl, hcr] at hc
    simpa using hc

/-- Witness for C8 at the closed XOR-like table S = [0,1],
T = [[0,1],[1,0]]. -/
theorem is_associative_iff_chain_witness :
    (∀ i, i < ([PyVal.pint 0, PyVal.pint 1]).length →
      ∀ j, j < ([PyVal.pint 0, PyVal.pint 1]).length →
        tget [[.pint 0, .pint 1], [.pint 1, .pint 0]] i j ∈
          [PyVal.pint 0, PyVal.pint 1])
    ∧ (is_associative [.pint 0, .pint 1]
          [[.pint 0, .pint 1], [.pint 1, .pint 0]] = .ok true ↔
        ∀ i, i < ([PyVal.pint 0, PyVal.pint 1]).length →
          ∀ j, j < ([PyVal.pint 0, PyVal.pint 1]).length →
            ∀ k, k < ([PyVal.pint 0, PyVal.pint 1]).length →
              chainLeft [.pint 0, .pint 1] [[.pint 0, .pint 1], [.pint 1, .pint 0]]
                  i j k =
                chainRight [.pint 0, .pint 1] [[.pint 0, .pint 1], [.pint 1, .pint 0]]
                  i j k) :=
  ⟨by decide,
   is_associative_iff_chain [.pint 0, .pint 1]
     [[.pint 0, .pint 1], [.pint 1, .pint 0]] (by decide)⟩

/-- C3 counterexample: at the spec's own malformed scenario S = [a,b],
T = [[a,c],[b,a]] (entry "c" not in S), `find_inverses` does not fail with
an index-lookup error — it performs no index lookups and returns the normal
all-absent mapping — while `is_associative` does raise the lookup failure. -/
theorem find_inverses_nonclosure_normal_result :
    find_inverses [.pstr "a", .pstr "b"]
        [[.pstr "a", .pstr "c"], [.pstr "b", .pstr "a"]] =
      [(.pstr "a", none), (.pstr "b", none)]
    ∧ is_associative [.pstr "a", .pstr "b"]
        [[.pstr "a", .pstr "c"], [.pstr "b", .pstr "a"]] = .error .keyError :=
  ⟨rfl, rfl⟩

/-- C3 (amended): on a table with an entry outside S, `is_associative` —
the one routine that builds a label-to-index mapping — either fails with the
lookup error or has already returned false on an earlier associativity
violation, and never returns true; `find_inverses` builds no such mapping
and returns a normal mapping with one entry per element of S, in S's
order. -/
theorem nonclosure_behavior (S : List PyVal) (T : List (List PyVal))
    (_hnd : S.Nodup)
    (hbad : ∃ i, i < S.length ∧ ∃ j, j < S.length ∧ tget T i j ∉ S) :
    (is_associative S T = .error .keyError ∨ is_associative S T = .ok false)
    ∧ (find_inverses S T).map Prod.fst = S := by
  constructor
  · obtain ⟨i, hi, j, hj, hout⟩ := hbad
    have hnone : dictIdx S (tget T i j) = none := dictIdx_eq_none_iff.mpr hout
    have hne : is_associative S T ≠ .ok true := by
      intro h
      rw [is_associative, assocLoop_ok_true_iff] at h
      have hct := h (i, j, 0) (mem_triples.mpr ⟨hi, hj, Nat.zero_lt_of_lt hi⟩)
      rw [checkTriple, hnone] at hct
      exact Except.noConfusion hct
    have hres := assocLoop_result (S := S) (T := T) (triples S.length)
    rw [← is_associative] at hres
    rcases hres with h | h | h
    · exact Or.inl h
    · exact absurd h hne
    · exact Or.inr h
  · rw [find_inverses]
    split
    · rw [List.map_map]
      simp [Function.comp_def]
    · rw [List.map_map]
      refine List.ext_getElem (by simp) ?_
      intro m h1 h2
      simp only [List.getElem_map, List.getElem_range, Function.comp_apply]
      rw [sget, List.getD_eq_getElem _ _ h2]

/-- Witness for the amended C3 at the malformed scenario S = [a,b],
T = [[a,c],[b,a]]. -/
theorem nonclosure_behavior_witness :
    ([PyVal.pstr "a", PyVal.pstr "b"].Nodup
      ∧ ∃ i, i < ([PyVal.pstr "a", PyVal.pstr "b"]).length ∧
          ∃ j, j < ([PyVal.pstr "a", PyVal.pstr "b"]).length ∧
            tget [[.pstr "a", .pstr "c"], [.pstr "b", .pstr "a"]] i j ∉
              [PyVal.pstr "a", PyVal.pstr "b"])
    ∧ ((is_associative [.pstr "a", .pstr "b"]
          [[.pstr "a", .pstr "c"], [.pstr "b", .pstr "a"]] = .error .keyError
        ∨ is_associative [.pstr "a", .pstr "b"]
            [[.pstr "a", .pstr "c"], [.pstr "b", .pstr "a"]] = .ok false)
      ∧ (find_inverses [.pstr "a", .pstr "b"]
            [[.pstr "a", .pstr "c"], [.pstr "b", .pstr "a"]]).map Prod.fst =
          [.pstr "a", .pstr "b"]) :=
  ⟨⟨by decide, ⟨0, by decide, 1, by decide, by decide⟩⟩,
   nonclosure_behavior [.pstr "a", .pstr "b"]
     [[.pstr "a", .pstr "c"], [.pstr "b", .pstr "a"]] (by decide)
     ⟨0, by decide, 1, by decide, by decide⟩⟩

/-- C10: `divide` raises ValueError exactly when y == 0, and for nonzero y
returns the quotient x / y without error (numbers embedded as exact
rationals). -/
theorem divide_spec (x y : ℚ) :
    (divide x y = .error .valueError ↔ y = 0)
    ∧ (y ≠ 0 → divide x y = .ok (x / y)) := by
  constructor
  · constructor
    · intro h
      by_contra hy
      rw [divide, if_neg hy] at h
      cases h
    · intro hy
      rw [divide, if_pos hy]
  · intro hy
    rw [divide, if_neg hy]

/-- Witness for C10 at x = 2, y = 1. -/
theorem divide_spec_witness : (1 : ℚ) ≠ 0 ∧ divide 2 1 = .ok (2 / 1) :=
  ⟨by norm_num, (divide_spec 2 1).2 (by norm_num)⟩

end Tools
